import Mathlib

/-!
Verification development for the drone-sensor task scheduling engine.

Namespace `TaskSched` embeds the class `DroneTaskScheduler` of
`src/code/simulation/task_scheduling.py`; namespace `YafsSched` embeds the
class `TaskScheduler` of `src/simulation/YAFS_simulation.py`.

Modelling conventions:
* Python float arithmetic is modelled by exact arithmetic: coordinates,
  battery levels and times are rationals, Euclidean distances and costs are
  real numbers (`Real.sqrt`).
* Python dicts (which iterate in insertion order) are modelled as
  association lists; `defaultdict(list)` is modelled as a total function.
* Python's random draws are modelled as explicit choice oracles ("tapes")
  passed as arguments; theorems quantify over all tapes, so they hold for
  every realization of the randomness.
* A Python statement that can raise (e.g. `min([])`) is modelled in the
  `Option` monad, with `none` for the raised exception.
-/

namespace TaskSched

/-- Positions are pairs of (exact) coordinates, as in the Python tuples. -/
abbrev Pos := ℚ × ℚ

/-- Embeds `DroneTaskScheduler.calculate_distance`: Euclidean distance. -/
noncomputable def calculate_distance (p1 p2 : Pos) : ℝ :=
  Real.sqrt (((p1.1 : ℝ) - (p2.1 : ℝ)) ^ 2 + ((p1.2 : ℝ) - (p2.2 : ℝ)) ^ 2)

/-- One record appended to `assigned_tasks[best_drone]` by `schedule_task`. -/
structure Task where
  sensor : Nat
  time : ℚ
  distance : ℝ

/-- State of a `DroneTaskScheduler` instance: the four dicts it mutates.
Association lists model dict insertion/iteration order. -/
structure Scheduler where
  drone_positions : List (Nat × Pos)
  sensor_positions : List (Nat × Pos)
  drone_battery : List (Nat × ℚ)
  assigned_tasks : Nat → List Task

/-- Dict lookup on an association list (first matching key, as in a dict). -/
def lookup (l : List (Nat × α)) (k : Nat) : Option α :=
  (l.find? (fun e => e.1 == k)).map (fun e => e.2)

/-- Dict update of an existing key; Python dict assignment to a present key
keeps the key's insertion position, which `setKey` mirrors. -/
def setKey (l : List (Nat × α)) (k : Nat) (v : α) : List (Nat × α) :=
  l.map (fun e => if e.1 = k then (k, v) else e)

/-- Battery lookup `self.drone_battery[id]`; a missing key would raise
`KeyError` in Python and is modelled as battery 0 (it never occurs in
states the class itself constructs, where the two drone dicts share keys). -/
def batteryOf (st : Scheduler) (id : Nat) : ℚ :=
  (lookup st.drone_battery id).getD 0

/-- Cost of one drone for a sensor: `distance + (100 - battery) * 0.5`. -/
noncomputable def droneCost (st : Scheduler) (spos : Pos) (e : Nat × Pos) : ℝ :=
  calculate_distance e.2 spos + (100 - ((batteryOf st e.1 : ℚ) : ℝ)) * 0.5

/-- One iteration of the selection loop of `schedule_task`: the accumulator
is `(best_drone, min_cost)` and a drone is taken when
`battery > 20 and cost < min_cost`.  `min_cost` starts at `float('inf')`,
modelled by `⊤` in `WithTop ℝ`. -/
noncomputable def selStep (st : Scheduler) (spos : Pos)
    (acc : Option Nat × WithTop ℝ) (e : Nat × Pos) : Option Nat × WithTop ℝ :=
  if batteryOf st e.1 > 20 ∧ (droneCost st spos e : WithTop ℝ) < acc.2
  then (some e.1, (droneCost st spos e : WithTop ℝ))
  else acc

/-- The selection loop of `schedule_task`: fold `selStep` over the drone
dict, starting from `(None, float('inf'))`. -/
noncomputable def selectBest (st : Scheduler) (spos : Pos) : Option Nat × WithTop ℝ :=
  st.drone_positions.foldl (selStep st spos) (none, ⊤)

/-- Embeds `DroneTaskScheduler.schedule_task`.  Returns the updated state and
the drone id (`None` maps to `none`).  The Python guard `if best_drone:` is
falsy both for `None` and for a drone id equal to `0`, which the inner
`if best_drone = 0` branch mirrors. -/
noncomputable def schedule_task (st : Scheduler) (sensor_id : Nat) (current_time : ℚ) :
    Scheduler × Option Nat :=
  match lookup st.sensor_positions sensor_id with
  | none => (st, none)
  | some sensor_pos =>
    match (selectBest st sensor_pos).1 with
    | none => (st, none)
    | some best_drone =>
      if best_drone = 0 then (st, none)
      else
        let dpos := (lookup st.drone_positions best_drone).getD (0, 0)
        let b := batteryOf st best_drone
        ({ drone_positions := setKey st.drone_positions best_drone sensor_pos,
           sensor_positions := st.sensor_positions,
           drone_battery := setKey st.drone_battery best_drone (b - min 5 b),
           assigned_tasks := fun d =>
             if d = best_drone then
               st.assigned_tasks best_drone ++
                 [⟨sensor_id, current_time, calculate_distance dpos sensor_pos⟩]
             else st.assigned_tasks d },
         some best_drone)

/-- Embeds `DroneTaskScheduler.recharge_drone`: if the id is a known battery
key, set battery to `min(100, battery + 20)`. -/
def recharge_drone (st : Scheduler) (drone_id : Nat) : Scheduler :=
  match lookup st.drone_battery drone_id with
  | some b =>
      { st with drone_battery := setKey st.drone_battery drone_id (min 100 (b + 20)) }
  | none => st

/-- Embeds `grid_size = int(math.sqrt(num_sensors)) + 2`: the floor of the
square root, plus 2. -/
def grid_size (ns : Nat) : Nat := Nat.sqrt ns + 2

/-- Grid cells `(i, j)` in the order the nested loops of
`_initialize_positions` visit them (row-major in `i`). -/
def sensorCells (g : Nat) : List (Nat × Nat) :=
  (List.range g).flatMap (fun i => (List.range g).map (fun j => (i, j)))

/-- Sensor dict built by `_initialize_positions`: the first `num_sensors`
cells, sensor `100 + idx` at `(i * 10, j * 10)`. -/
def sensorEntries (ns : Nat) : List (Nat × Pos) :=
  ((sensorCells (grid_size ns)).take ns).enum.map
    (fun e => (100 + e.1, (((e.2.1 * 10 : ℕ) : ℚ), ((e.2.2 * 10 : ℕ) : ℚ))))

/-- Drone dict built by `_initialize_positions`: drone `50 + i` at
`(randint(0, grid_size*10), randint(0, grid_size*10))`.  The random draws
come from the tape `tape`, reduced modulo `grid_size*10 + 1` so that every
value in the inclusive `randint` range (and only those) can occur. -/
def droneEntries (nd ns : Nat) (tape : Nat → Nat × Nat) : List (Nat × Pos) :=
  (List.range nd).map (fun i =>
    (50 + i, ((((tape i).1 % (grid_size ns * 10 + 1) : ℕ) : ℚ),
              (((tape i).2 % (grid_size ns * 10 + 1) : ℕ) : ℚ))))

/-- Embeds `__init__` together with `_initialize_positions`: sensor grid,
random drone positions, full battery `100.0` for every drone, empty task
dict. -/
def initPositions (nd ns : Nat) (tape : Nat → Nat × Nat) : Scheduler :=
  { drone_positions := droneEntries nd ns tape,
    sensor_positions := sensorEntries ns,
    drone_battery := (List.range nd).map (fun i => (50 + i, (100 : ℚ))),
    assigned_tasks := fun _ => [] }

/-- Characterization of the selection fold: either no drone on the list is
above the battery threshold and the accumulator is untouched, or the result
names the first drone attaining the strictly minimal cost among those above
the threshold. -/
lemma foldl_selStep_spec (st : Scheduler) (spos : Pos) (l : List (Nat × Pos)) :
    (l.foldl (selStep st spos) (none, ⊤) = (none, ⊤) ∧
      ∀ e ∈ l, batteryOf st e.1 ≤ 20) ∨
    (∃ b p l₁ l₂, l = l₁ ++ (b, p) :: l₂ ∧
      l.foldl (selStep st spos) (none, ⊤) =
        (some b, (droneCost st spos (b, p) : WithTop ℝ)) ∧
      20 < batteryOf st b ∧
      (∀ e ∈ l₁, 20 < batteryOf st e.1 →
        droneCost st spos (b, p) < droneCost st spos e) ∧
      (∀ e ∈ l₂, 20 < batteryOf st e.1 →
        droneCost st spos (b, p) ≤ droneCost st spos e)) := by
  induction l using List.reverseRecOn with
  | nil => exact Or.inl ⟨rfl, by simp⟩
  | append_singleton l e ih =>
    rw [List.foldl_append, List.foldl_cons, List.foldl_nil]
    rcases ih with ⟨heq, hall⟩ | ⟨b, p, l₁, l₂, hdec, heq, hb, h₁, h₂⟩
    · rw [heq]
      by_cases hel : 20 < batteryOf st e.1
      · refine Or.inr ⟨e.1, e.2, l, [], by simp, ?_, hel, ?_, by simp⟩
        · simp only [selStep]
          rw [if_pos ⟨hel, WithTop.coe_lt_top _⟩]
        · intro e' he' hbe'
          exact absurd hbe' (not_lt.mpr (hall e' he'))
      · refine Or.inl ⟨?_, ?_⟩
        · simp only [selStep]
          rw [if_neg (fun hc => hel hc.1)]
        · intro e' he'
          rcases List.mem_append.mp he' with h | h
          · exact hall e' h
          · rw [List.mem_singleton.mp h]; exact not_lt.mp hel
    · rw [heq]
      by_cases hc : 20 < batteryOf st e.1 ∧
          droneCost st spos e < droneCost st spos (b, p)
      · refine Or.inr ⟨e.1, e.2, l, [], by simp, ?_, hc.1, ?_, by simp⟩
        · simp only [selStep]
          rw [if_pos ⟨hc.1, WithTop.coe_lt_coe.mpr hc.2⟩]
        · intro e' he' hbe'
          rw [hdec] at he'
          rcases List.mem_append.mp he' with h | h
          · exact lt_trans hc.2 (h₁ e' h hbe')
          · rcases List.mem_cons.mp h with h | h
            · rw [h]; exact hc.2
            · exact lt_of_lt_of_le hc.2 (h₂ e' h hbe')
      · refine Or.inr ⟨b, p, l₁, l₂ ++ [e], by rw [hdec]; simp, ?_, hb, h₁, ?_⟩
        · simp only [selStep]
          rw [if_neg (fun hcc => hc ⟨hcc.1, WithTop.coe_lt_coe.mp hcc.2⟩)]
        · intro e' he' hbe'
          rcases List.mem_append.mp he' with h | h
          · exact h₂ e' h hbe'
          · rw [List.mem_singleton.mp h] at hbe' ⊢
            rcases not_and.mp hc hbe' with h
            exact not_lt.mp h

/-- If every drone on the registry is at or below the threshold, the
selection loop returns `None`. -/
lemma selectBest_none (st : Scheduler) (spos : Pos)
    (h : ∀ e ∈ st.drone_positions, batteryOf st e.1 ≤ 20) :
    selectBest st spos = (none, ⊤) := by
  rcases foldl_selStep_spec st spos st.drone_positions with ⟨heq, _⟩ |
    ⟨b, p, l₁, l₂, hdec, _, hb, _, _⟩
  · exact heq
  · exfalso
    have : (b, p) ∈ st.drone_positions := by
      rw [hdec]; exact List.mem_append_right _ (List.mem_cons_self _ _)
    exact absurd hb (not_lt.mpr (h _ this))

/-- If the selection loop returns a drone, that drone is a registry entry
above the battery threshold, of minimal cost, first among ties. -/
lemma selectBest_some (st : Scheduler) (spos : Pos) (b : Nat)
    (h : (selectBest st spos).1 = some b) :
    ∃ p l₁ l₂, st.drone_positions = l₁ ++ (b, p) :: l₂ ∧
      20 < batteryOf st b ∧
      (∀ e ∈ l₁, 20 < batteryOf st e.1 →
        droneCost st spos (b, p) < droneCost st spos e) ∧
      (∀ e ∈ l₂, 20 < batteryOf st e.1 →
        droneCost st spos (b, p) ≤ droneCost st spos e) := by
  rcases foldl_selStep_spec st spos st.drone_positions with ⟨heq, _⟩ |
    ⟨b', p, l₁, l₂, hdec, heq, hb, h₁, h₂⟩
  · rw [selectBest, heq] at h; simp at h
  · rw [selectBest, heq] at h
    simp only [Option.some.injEq] at h
    subst h
    exact ⟨p, l₁, l₂, hdec, hb, h₁, h₂⟩

/-- Updating key `k` does not affect the lookup of any other key. -/
lemma lookup_setKey_ne (l : List (Nat × α)) (k k' : Nat) (v : α) (h : k' ≠ k) :
    lookup (setKey l k v) k' = lookup l k' := by
  induction l with
  | nil => rfl
  | cons e l ih =>
    simp only [setKey, List.map_cons, lookup, List.find?]
    by_cases he : e.1 = k
    · rw [if_pos he]
      have : (k == k') = false := by
        simp only [beq_eq_false_iff_ne]; exact fun hk => h hk.symm
      have he' : (e.1 == k') = false := by
        simp only [beq_eq_false_iff_ne, he]; exact fun hk => h hk.symm
      rw [this, he']
      exact ih
    · rw [if_neg he]
      cases hfind : (e.1 == k') with
      | true => rfl
      | false => exact ih

/-- Updating a present key makes its lookup return the new value. -/
lemma lookup_setKey_self (l : List (Nat × α)) (k : Nat) (v : α)
    (h : (lookup l k).isSome) : lookup (setKey l k v) k = some v := by
  induction l with
  | nil => simp [lookup] at h
  | cons e l ih =>
    simp only [setKey, List.map_cons, lookup, List.find?]
    by_cases he : e.1 = k
    · rw [if_pos he]
      simp
    · rw [if_neg he]
      have hne : (e.1 == k) = false := by simp [he]
      rw [hne]
      simp only [lookup, List.find?, hne] at h
      exact ih h

/-- Membership in an updated association list: each entry either was there
before, or is the freshly written pair for a key that was present. -/
lemma mem_setKey (l : List (Nat × α)) (k : Nat) (v : α) (x : Nat × α)
    (h : x ∈ setKey l k v) : x ∈ l ∨ (x = (k, v) ∧ ∃ y, (k, y) ∈ l) := by
  rcases List.mem_map.mp h with ⟨e, he, hx⟩
  by_cases hk : e.1 = k
  · rw [if_pos hk] at hx
    right
    exact ⟨hx.symm, e.2, by rw [← hk]; exact he⟩
  · rw [if_neg hk] at hx
    left; rw [← hx]; exact he

/-- The value `batteryOf` reads for a present key is one of the stored
values. -/
lemma batteryOf_mem (st : Scheduler) (id : Nat)
    (h : (lookup st.drone_battery id).isSome) :
    (id, batteryOf st id) ∈ st.drone_battery := by
  rcases Option.isSome_iff_exists.mp h with ⟨b, hb⟩
  have hfind : st.drone_battery.find? (fun e => e.1 == id) =
      some (id, b) := by
    simp only [lookup] at hb
    rcases hfound : st.drone_battery.find? (fun e => e.1 == id) with _ | e'
    · rw [hfound] at hb; simp at hb
    · rw [hfound] at hb
      have hb2 : e'.2 = b := by simpa using hb
      have := List.find?_some hfound
      have he1 : e'.1 = id := by simpa using this
      rw [hfound]
      congr 1
      rw [← he1, ← hb2]
  have hmem := List.mem_of_find?_eq_some hfind
  have : batteryOf st id = b := by simp [batteryOf, lookup, hfind]
  rw [this]; exact hmem

/-- A key that occurs in an association list has a successful lookup. -/
lemma lookup_isSome_of_mem (l : List (Nat × α)) (k : Nat) (x : α)
    (h : (k, x) ∈ l) : (lookup l k).isSome := by
  induction l with
  | nil => simp at h
  | cons e l ih =>
    simp only [lookup, List.find?]
    cases hbeq : (e.1 == k) with
    | true => simp
    | false =>
      rcases List.mem_cons.mp h with he | hmem
      · rw [← he] at hbeq; simp at hbeq
      · exact ih hmem

/-- Inversion of a `schedule_task` call that returned no assignment: every
such return path leaves the state untouched. -/
lemma schedule_task_none_inv (st st' : Scheduler) (sid : Nat) (t : ℚ)
    (h : schedule_task st sid t = (st', none)) : st' = st := by
  unfold schedule_task at h
  rcases hlook : lookup st.sensor_positions sid with _ | spos
  · simp only [hlook] at h
    exact (Prod.ext_iff.mp h).1.symm
  · simp only [hlook] at h
    rcases hsel : (selectBest st spos).1 with _ | b
    · simp only [hsel] at h
      exact (Prod.ext_iff.mp h).1.symm
    · simp only [hsel] at h
      by_cases hb0 : b = 0
      · rw [if_pos hb0] at h
        exact (Prod.ext_iff.mp h).1.symm
      · rw [if_neg hb0] at h
        exact absurd (Prod.ext_iff.mp h).2 (by simp)

/-- Inversion of a successful `schedule_task` call: the selected drone is a
registry entry with battery above 20 and of minimal cost (first among
ties), and the returned state is exactly the three recorded updates. -/
lemma schedule_task_some_inv (st st' : Scheduler) (sid : Nat) (t : ℚ) (bd : Nat)
    (h : schedule_task st sid t = (st', some bd)) :
    ∃ spos p l₁ l₂, lookup st.sensor_positions sid = some spos ∧
      st.drone_positions = l₁ ++ (bd, p) :: l₂ ∧
      20 < batteryOf st bd ∧ bd ≠ 0 ∧
      (∀ e ∈ l₁, 20 < batteryOf st e.1 →
        droneCost st spos (bd, p) < droneCost st spos e) ∧
      (∀ e ∈ l₂, 20 < batteryOf st e.1 →
        droneCost st spos (bd, p) ≤ droneCost st spos e) ∧
      st' = { drone_positions := setKey st.drone_positions bd spos,
              sensor_positions := st.sensor_positions,
              drone_battery := setKey st.drone_battery bd
                (batteryOf st bd - min 5 (batteryOf st bd)),
              assigned_tasks := fun d => if d = bd then
                  st.assigned_tasks bd ++ [⟨sid, t, calculate_distance
                    ((lookup st.drone_positions bd).getD (0, 0)) spos⟩]
                else st.assigned_tasks d } := by
  unfold schedule_task at h
  rcases hlook : lookup st.sensor_positions sid with _ | spos
  · simp only [hlook] at h
    exact absurd (Prod.ext_iff.mp h).2 (by simp)
  · simp only [hlook] at h
    rcases hsel : (selectBest st spos).1 with _ | b
    · simp only [hsel] at h
      exact absurd (Prod.ext_iff.mp h).2 (by simp)
    · simp only [hsel] at h
      by_cases hb0 : b = 0
      · rw [if_pos hb0] at h
        exact absurd (Prod.ext_iff.mp h).2 (by simp)
      · rw [if_neg hb0] at h
        obtain ⟨h1, h2⟩ := Prod.ext_iff.mp h
        have hbd : b = bd := by simpa using h2
        subst hbd
        rcases selectBest_some st spos b hsel with ⟨p, l₁, l₂, hdec, hbat, hlt, hle⟩
        exact ⟨spos, p, l₁, l₂, rfl, hdec, hbat, hb0, hlt, hle, h1.symm⟩

/-- C1: a successful `schedule_task(sensor_id, t)` call selects a drone
whose battery exceeds 20 at selection time and, as its entire effect, sets
that drone's position to the sensor's position, appends exactly one `Task`
record whose distance is the Euclidean distance from the drone's
pre-assignment position to the sensor's position, and decreases that
drone's battery by `min(5, battery)`; sensors and all other fields are
untouched.  Moreover, whenever the sensor is known and some drone is above
the battery threshold, the call does succeed — provided no drone has id 0
(true of every state reachable from initialization, where drone ids start
at 50; the Python truthiness test `if best_drone:` would misread a
selected id 0 as "no assignment"). -/
theorem c1_schedule_task_success_effects (st : Scheduler) (sid : Nat) (t : ℚ) :
    (∀ st' bd, schedule_task st sid t = (st', some bd) →
      20 < batteryOf st bd ∧
      ∃ spos, lookup st.sensor_positions sid = some spos ∧
        st'.drone_positions = setKey st.drone_positions bd spos ∧
        lookup st'.drone_positions bd = some spos ∧
        st'.sensor_positions = st.sensor_positions ∧
        st'.drone_battery = setKey st.drone_battery bd
          (batteryOf st bd - min 5 (batteryOf st bd)) ∧
        st'.assigned_tasks bd = st.assigned_tasks bd ++
          [⟨sid, t, calculate_distance
            ((lookup st.drone_positions bd).getD (0, 0)) spos⟩] ∧
        (∀ d, d ≠ bd → st'.assigned_tasks d = st.assigned_tasks d)) ∧
    ((∀ p, (0, p) ∉ st.drone_positions) →
      (∃ e ∈ st.drone_positions, 20 < batteryOf st e.1) →
      (lookup st.sensor_positions sid).isSome →
      ∃ st' bd, schedule_task st sid t = (st', some bd)) := by
  constructor
  · intro st' bd h
    rcases schedule_task_some_inv st st' sid t bd h with
      ⟨spos, p, l₁, l₂, hlook, hdec, hbat, _, _, _, hst'⟩
    have hmem : (bd, p) ∈ st.drone_positions := by
      rw [hdec]; exact List.mem_append_right _ (List.mem_cons_self _ _)
    have hsome := lookup_isSome_of_mem st.drone_positions bd p hmem
    refine ⟨hbat, spos, hlook, ?_, ?_, ?_, ?_, ?_, ?_⟩
    · rw [hst']
    · rw [hst']
      exact lookup_setKey_self st.drone_positions bd spos hsome
    · rw [hst']
    · rw [hst']
    · rw [hst']; simp
    · intro d hd
      rw [hst']
      simp only [if_neg hd]
  · intro h0 hex hsid
    rcases Option.isSome_iff_exists.mp hsid with ⟨spos, hspos⟩
    rcases foldl_selStep_spec st spos st.drone_positions with ⟨_, hall⟩ |
      ⟨b, p, l₁, l₂, hdec, heq, hb, _, _⟩
    · rcases hex with ⟨e, he, hbe⟩
      exact absurd hbe (not_lt.mpr (hall e he))
    · have hsel : (selectBest st spos).1 = some b := by
        rw [selectBest, heq]
      have hb0 : b ≠ 0 := by
        intro hb0
        subst hb0
        exact h0 p (by
          rw [hdec]
          exact List.mem_append_right _ (List.mem_cons_self _ _))
      refine ⟨{ drone_positions := setKey st.drone_positions b spos,
                sensor_positions := st.sensor_positions,
                drone_battery := setKey st.drone_battery b
                  (batteryOf st b - min 5 (batteryOf st b)),
                assigned_tasks := fun d =>
                  if d = b then
                    st.assigned_tasks b ++
                      [⟨sid, t, calculate_distance
                        ((lookup st.drone_positions b).getD (0, 0)) spos⟩]
                  else st.assigned_tasks d }, b, ?_⟩
      simp only [schedule_task, hspos, hsel, if_neg hb0]

/-- C2: `schedule_task` never returns a drone whose battery is at or below
20; if every registered drone is at or below 20 it returns no assignment
and leaves the state unchanged; and a returned drone has minimal
`cost = distance + (100 - battery) * 0.5` among drones above the
threshold, ties resolved to the first drone in registry iteration order. -/
theorem c2_schedule_task_threshold (st : Scheduler) (sid : Nat) (t : ℚ) :
    (∀ st' bd, schedule_task st sid t = (st', some bd) → 20 < batteryOf st bd) ∧
    ((∀ e ∈ st.drone_positions, batteryOf st e.1 ≤ 20) →
      schedule_task st sid t = (st, none)) ∧
    (∀ st' bd, schedule_task st sid t = (st', some bd) →
      ∃ spos p l₁ l₂, lookup st.sensor_positions sid = some spos ∧
        st.drone_positions = l₁ ++ (bd, p) :: l₂ ∧
        (∀ e ∈ l₁, 20 < batteryOf st e.1 →
          droneCost st spos (bd, p) < droneCost st spos e) ∧
        (∀ e ∈ l₂, 20 < batteryOf st e.1 →
          droneCost st spos (bd, p) ≤ droneCost st spos e)) := by
  refine ⟨?_, ?_, ?_⟩
  · intro st' bd h
    rcases schedule_task_some_inv st st' sid t bd h with
      ⟨_, _, _, _, _, _, hbat, _⟩
    exact hbat
  · intro hall
    unfold schedule_task
    rcases hlook : lookup st.sensor_positions sid with _ | spos
    · simp only [hlook]
    · simp only [hlook, selectBest_none st spos hall]
  · intro st' bd h
    rcases schedule_task_some_inv st st' sid t bd h with
      ⟨spos, p, l₁, l₂, hlook, hdec, _, _, hlt, hle, _⟩
    exact ⟨spos, p, l₁, l₂, hlook, hdec, hlt, hle⟩

/-- C10: `schedule_task` mutates nothing outside the selected drone: a call
that returns no assignment leaves the state identical, and a successful
call leaves the sensors and every other drone's position, battery and task
history unchanged. -/
theorem c10_schedule_task_frame (st st' : Scheduler) (sid : Nat) (t : ℚ) :
    (schedule_task st sid t = (st', none) → st' = st) ∧
    (∀ bd, schedule_task st sid t = (st', some bd) →
      st'.sensor_positions = st.sensor_positions ∧
      ∀ id, id ≠ bd →
        lookup st'.drone_positions id = lookup st.drone_positions id ∧
        lookup st'.drone_battery id = lookup st.drone_battery id ∧
        st'.assigned_tasks id = st.assigned_tasks id) := by
  constructor
  · exact schedule_task_none_inv st st' sid t
  · intro bd h
    rcases schedule_task_some_inv st st' sid t bd h with
      ⟨spos, p, l₁, l₂, _, _, _, _, _, _, hst'⟩
    refine ⟨by rw [hst'], ?_⟩
    intro id hid
    refine ⟨?_, ?_, ?_⟩
    · rw [hst']
      exact lookup_setKey_ne st.drone_positions bd id spos hid
    · rw [hst']
      exact lookup_setKey_ne st.drone_battery bd id _ hid
    · rw [hst']
      simp only [if_neg hid]

/-- One externally triggered operation on a `DroneTaskScheduler`. -/
inductive Op where
  | sched (sensor_id : Nat) (current_time : ℚ)
  | rech (drone_id : Nat)

/-- Runs a sequence of `schedule_task` / `recharge_drone` calls. -/
noncomputable def runOps (st : Scheduler) : List Op → Scheduler
  | [] => st
  | Op.sched sid t :: ops => runOps (schedule_task st sid t).1 ops
  | Op.rech id :: ops => runOps (recharge_drone st id) ops

/-- Battery range invariant: every stored battery level is within [0, 100]. -/
def BatteryInv (st : Scheduler) : Prop :=
  ∀ e ∈ st.drone_battery, 0 ≤ e.2 ∧ e.2 ≤ 100

lemma batteryInv_init (nd ns : Nat) (tape : Nat → Nat × Nat) :
    BatteryInv (initPositions nd ns tape) := by
  intro e he
  simp only [initPositions] at he
  rcases List.mem_map.mp he with ⟨i, _, hi⟩
  rw [← hi]
  norm_num

lemma batteryInv_schedule (st : Scheduler) (sid : Nat) (t : ℚ)
    (h : BatteryInv st) : BatteryInv (schedule_task st sid t).1 := by
  rcases hres : schedule_task st sid t with ⟨st', r⟩
  rcases r with _ | bd
  · rw [schedule_task_none_inv st st' sid t hres]
    exact h
  · rcases schedule_task_some_inv st st' sid t bd hres with
      ⟨spos, p, l₁, l₂, _, _, _, _, _, _, hst'⟩
    intro e he
    rw [hst'] at he
    simp only at he
    rcases mem_setKey st.drone_battery bd _ e he with hmem | ⟨hx, y, hy⟩
    · exact h e hmem
    · have hsome := lookup_isSome_of_mem st.drone_battery bd y hy
      have hb := h _ (batteryOf_mem st bd hsome)
      rw [hx]
      constructor
      · simp only
        have : min 5 (batteryOf st bd) ≤ batteryOf st bd := min_le_right _ _
        linarith
      · simp only
        have h0 : (0 : ℚ) ≤ min 5 (batteryOf st bd) :=
          le_min (by norm_num) hb.1
        linarith [hb.2]

lemma batteryInv_recharge (st : Scheduler) (id : Nat)
    (h : BatteryInv st) : BatteryInv (recharge_drone st id) := by
  unfold recharge_drone
  rcases hlook : lookup st.drone_battery id with _ | b
  · exact h
  · intro e he
    simp only at he
    rcases mem_setKey st.drone_battery id _ e he with hmem | ⟨hx, y, hy⟩
    · exact h e hmem
    · have hsome : (lookup st.drone_battery id).isSome := by rw [hlook]; rfl
      have hb := h _ (batteryOf_mem st id hsome)
      have hbval : batteryOf st id = b := by simp [batteryOf, hlook]
      rw [hbval] at hb
      rw [hx]
      refine ⟨?_, ?_⟩
      · simp only
        exact le_min (by norm_num) (by linarith [hb.1])
      · simp only
        exact min_le_left _ _

lemma batteryInv_runOps (st : Scheduler) (ops : List Op)
    (h : BatteryInv st) : BatteryInv (runOps st ops) := by
  induction ops generalizing st with
  | nil => exact h
  | cons op ops ih =>
    cases op with
    | sched sid t => exact ih _ (batteryInv_schedule st sid t h)
    | rech id => exact ih _ (batteryInv_recharge st id h)

/-- C3: batteries start at 100 at initialization, and along every sequence
of `schedule_task` and `recharge_drone` calls every drone's stored battery
level stays within [0, 100]: task drain is `min(5, battery)` so the level
never goes negative, and recharge is clamped at 100. -/
theorem c3_battery_bounds (nd ns : Nat) (tape : Nat → Nat × Nat) :
    (∀ e ∈ (initPositions nd ns tape).drone_battery, e.2 = 100) ∧
    (∀ ops : List Op, ∀ e ∈ (runOps (initPositions nd ns tape) ops).drone_battery,
      0 ≤ e.2 ∧ e.2 ≤ 100) := by
  constructor
  · intro e he
    simp only [initPositions] at he
    rcases List.mem_map.mp he with ⟨i, _, hi⟩
    rw [← hi]
  · intro ops e he
    exact batteryInv_runOps _ ops (batteryInv_init nd ns tape) e he

/-- Concrete registry for witnesses: one drone (id 50, battery 100) and one
sensor (id 100), both at the origin. -/
def stW : Scheduler :=
  { drone_positions := [(50, ((0 : ℚ), (0 : ℚ)))],
    sensor_positions := [(100, ((0 : ℚ), (0 : ℚ)))],
    drone_battery := [(50, (100 : ℚ))],
    assigned_tasks := fun _ => [] }

/-- Registry with a single drone at battery 15, and a known sensor. -/
def stLow : Scheduler :=
  { drone_positions := [(50, ((0 : ℚ), (0 : ℚ)))],
    sensor_positions := [(100, ((5 : ℚ), (0 : ℚ)))],
    drone_battery := [(50, (15 : ℚ))],
    assigned_tasks := fun _ => [] }

/-- Witness for C1: on the concrete registry `stW`, the successful call
`schedule_task(100, 0)` selects drone 50 and has exactly the recorded
effects. -/
theorem c1_witness :
    20 < batteryOf stW 50 ∧
    ∃ spos, lookup stW.sensor_positions 100 = some spos ∧
      (schedule_task stW 100 0).1.drone_positions =
        setKey stW.drone_positions 50 spos ∧
      lookup (schedule_task stW 100 0).1.drone_positions 50 = some spos ∧
      (schedule_task stW 100 0).1.sensor_positions = stW.sensor_positions ∧
      (schedule_task stW 100 0).1.drone_battery = setKey stW.drone_battery 50
        (batteryOf stW 50 - min 5 (batteryOf stW 50)) ∧
      (schedule_task stW 100 0).1.assigned_tasks 50 = stW.assigned_tasks 50 ++
        [⟨100, 0, calculate_distance
          ((lookup stW.drone_positions 50).getD (0, 0)) spos⟩] ∧
      (∀ d, d ≠ 50 → (schedule_task stW 100 0).1.assigned_tasks d =
        stW.assigned_tasks d) :=
  (c1_schedule_task_success_effects stW 100 0).1 (schedule_task stW 100 0).1 50
    (Prod.ext_iff.mpr ⟨rfl, by
      norm_num [schedule_task, stW, lookup, selectBest, selStep, batteryOf]⟩)

/-- Witness for C2: with the single drone at battery 15 the call returns no
assignment and leaves the registry unchanged. -/
theorem c2_witness : schedule_task stLow 100 0 = (stLow, none) :=
  (c2_schedule_task_threshold stLow 100 0).2.1 (by
    intro e he
    simp only [stLow, List.mem_singleton] at he
    subst he
    norm_num [batteryOf, lookup, stLow])

/-- Witness for C3 on a concrete one-drone run ending with a recharge. -/
theorem c3_witness :
    (50, (100 : ℚ)) ∈ (runOps (initPositions 1 1 (fun _ => (0, 0)))
      [Op.rech 50]).drone_battery ∧
    (0 : ℚ) ≤ 100 ∧ (100 : ℚ) ≤ 100 := by
  have hmem : (50, (100 : ℚ)) ∈ (runOps (initPositions 1 1 (fun _ => (0, 0)))
      [Op.rech 50]).drone_battery := by
    norm_num [runOps, recharge_drone, initPositions, lookup, setKey,
      List.range_succ, Function.comp]
  exact ⟨hmem, (c3_battery_bounds 1 1 (fun _ => (0, 0))).2 [Op.rech 50] _ hmem⟩

/-- Witness for C10: a call with an unknown sensor id leaves the registry
unchanged. -/
theorem c10_witness : (schedule_task stW 999 0).1 = stW :=
  (c10_schedule_task_frame stW (schedule_task stW 999 0).1 999 0).1
    (Prod.ext_iff.mpr ⟨rfl, by norm_num [schedule_task, stW, lookup]⟩)

end TaskSched

namespace YafsSched

/-- A sensor entry `(x, y, sensor_id)` as built by `create_topology` and
consumed by `TaskScheduler`. -/
abbrev SPos := ℚ × ℚ × String

/-- A drone entry `(x, y, drone_id)`. -/
abbrev DPos := ℚ × ℚ × String

/-- The first two components of an `(x, y, id)` tuple, the only ones the
distance computations index. -/
def posOf (t : ℚ × ℚ × String) : ℚ × ℚ := (t.1, t.2.1)

/-- Embeds `TaskScheduler.calculate_distance` (`np.sqrt` of the sum of
squared coordinate differences). -/
noncomputable def calculate_distance (p1 p2 : ℚ × ℚ) : ℝ :=
  Real.sqrt (((p1.1 : ℝ) - (p2.1 : ℝ)) ^ 2 + ((p1.2 : ℝ) - (p2.2 : ℝ)) ^ 2)

/-- A candidate assignment: the Python dict `{drone index: [sensors]}` with
keys `0 .. num_drones - 1`, modelled positionally as a list of per-drone
sensor lists. -/
abbrev Cand := List (List SPos)

/-- Embeds `distances.index(min(distances))`: the index of the first
occurrence of the minimal value, `none` for an empty list (where Python's
`min` raises `ValueError`). -/
noncomputable def idxOfMin : List ℝ → Option Nat
  | [] => none
  | x :: xs =>
    match idxOfMin xs with
    | none => some 0
    | some j => if x ≤ xs.getD j 0 then some 0 else some (j + 1)

/-- Embeds `assignments[d].append(s)`: append `s` to the `d`-th list. -/
def placeAt : Cand → Nat → SPos → Cand
  | [], _, _ => []
  | l :: ls, 0, s => (l ++ [s]) :: ls
  | l :: ls, d + 1, s => l :: placeAt ls d s

/-- Embeds `TaskScheduler.k_means_clustering_assignment`: one pass
assigning each sensor to the drone of minimal Euclidean distance, with no
re-centering.  `none` models the `ValueError` Python raises from
`min([])` when the drone list is empty and a sensor is processed. -/
noncomputable def k_means_clustering_assignment (dp : List DPos) (sp : List SPos) :
    Option Cand :=
  let centroids := dp.map posOf
  sp.foldlM
    (fun acc s =>
      (idxOfMin (centroids.map (fun c => calculate_distance c (posOf s)))).map
        (fun i => placeAt acc i s))
    (List.replicate centroids.length [])

lemma length_placeAt (c : Cand) (d : Nat) (s : SPos) :
    (placeAt c d s).length = c.length := by
  induction c generalizing d with
  | nil => cases d <;> rfl
  | cons l ls ih =>
    cases d with
    | zero => rfl
    | succ d => simp only [placeAt, List.length_cons, ih]

lemma flatten_placeAt (c : Cand) (d : Nat) (s : SPos) (h : d < c.length) :
    (placeAt c d s).flatten.Perm (s :: c.flatten) := by
  induction c generalizing d with
  | nil => simp at h
  | cons l ls ih =>
    cases d with
    | zero =>
      simp only [placeAt, List.flatten_cons]
      exact (List.perm_append_singleton s l).append_right ls.flatten
    | succ d =>
      simp only [placeAt, List.flatten_cons]
      exact ((ih d (by simpa using h)).append_left l).trans List.perm_middle

lemma getD_placeAt_self (c : Cand) (d : Nat) (s : SPos) (h : d < c.length) :
    (placeAt c d s).getD d [] = c.getD d [] ++ [s] := by
  induction c generalizing d with
  | nil => simp at h
  | cons l ls ih =>
    cases d with
    | zero => rfl
    | succ d =>
      simp only [placeAt, List.getD_cons_succ]
      exact ih d (by simpa using h)

lemma getD_placeAt_ne (c : Cand) (d i : Nat) (s : SPos) (h : i ≠ d) :
    (placeAt c d s).getD i [] = c.getD i [] := by
  induction c generalizing d i with
  | nil => cases d <;> rfl
  | cons l ls ih =>
    cases d with
    | zero =>
      cases i with
      | zero => exact absurd rfl h
      | succ i => rfl
    | succ d =>
      cases i with
      | zero => rfl
      | succ i =>
        simp only [placeAt, List.getD_cons_succ]
        exact ih d i (fun hc => h (by rw [hc]))

lemma idxOfMin_isSome : ∀ (l : List ℝ), l ≠ [] → (idxOfMin l).isSome
  | [], h => absurd rfl h
  | x :: xs, _ => by
    simp only [idxOfMin]
    cases h2 : idxOfMin xs with
    | none => rfl
    | some j =>
      show (if x ≤ xs.getD j 0 then some 0 else some (j + 1)).isSome = true
      split <;> rfl

lemma idxOfMin_spec : ∀ (l : List ℝ) (i : Nat), idxOfMin l = some i →
    i < l.length ∧ (∀ j, j < l.length → l.getD i 0 ≤ l.getD j 0) ∧
    (∀ j, j < i → l.getD i 0 < l.getD j 0)
  | [], i, h => by simp [idxOfMin] at h
  | x :: xs, i, h => by
    simp only [idxOfMin] at h
    cases h2 : idxOfMin xs with
    | none =>
      rw [h2] at h
      replace h : some 0 = some i := h
      have hxs : xs = [] := by
        cases xs with
        | nil => rfl
        | cons y ys =>
          have hs := idxOfMin_isSome (y :: ys) (by simp)
          rw [h2] at hs
          simp at hs
      obtain rfl : 0 = i := by simpa using h
      subst hxs
      refine ⟨by simp, ?_, by simp⟩
      intro j hj
      have : j = 0 := by simpa using Nat.lt_one_iff.mp (by simpa using hj)
      subst this
      exact le_refl _
    | some j =>
      rw [h2] at h
      replace h : (if x ≤ xs.getD j 0 then some 0 else some (j + 1)) = some i := h
      obtain ⟨hlt, hmin, hfirst⟩ := idxOfMin_spec xs j h2
      by_cases hle : x ≤ xs.getD j 0
      · rw [if_pos hle] at h
        obtain rfl : 0 = i := by simpa using h
        refine ⟨by simp, ?_, by simp⟩
        intro k hk
        cases k with
        | zero => exact le_refl _
        | succ k =>
          simp only [List.getD_cons_zero, List.getD_cons_succ]
          exact le_trans hle (hmin k (by simpa using hk))
      · rw [if_neg hle] at h
        obtain rfl : j + 1 = i := by simpa using h
        push_neg at hle
        refine ⟨by simpa using hlt, ?_, ?_⟩
        · intro k hk
          cases k with
          | zero => exact le_of_lt (by simpa using hle)
          | succ k =>
            simp only [List.getD_cons_succ]
            exact hmin k (by simpa using hk)
        · intro k hk
          cases k with
          | zero => simpa using hle
          | succ k =>
            simp only [List.getD_cons_succ]
            exact hfirst k (by simpa using hk)

/-- The drone index `k_means_clustering_assignment` picks for a sensor:
first index of minimal distance (0 is never used as a default, since the
drone list is nonempty whenever this is consulted). -/
noncomputable def chosenIdx (dp : List DPos) (s : SPos) : Nat :=
  (idxOfMin ((dp.map posOf).map
    (fun c => calculate_distance c (posOf s)))).getD 0

/-- Pure view of the k-means assignment loop once no step can fail. -/
noncomputable def kmeansFold (dp : List DPos) (sp : List SPos) (acc : Cand) : Cand :=
  sp.foldl (fun a s => placeAt a (chosenIdx dp s) s) acc

lemma distList_getD (dp : List DPos) (s : SPos) (j : Nat) (hj : j < dp.length) :
    ((dp.map posOf).map (fun c => calculate_distance c (posOf s))).getD j 0 =
      calculate_distance (posOf (dp.getD j default)) (posOf s) := by
  have hsome : dp[j]? = some (dp.get ⟨j, hj⟩) := List.getElem?_eq_getElem hj
  rw [List.getD_eq_getElem?_getD, List.getElem?_map, List.getElem?_map,
    List.getD_eq_getElem?_getD, hsome]
  rfl

lemma chosenIdx_spec (dp : List DPos) (s : SPos) (h : dp ≠ []) :
    chosenIdx dp s < dp.length ∧
    (∀ j, j < dp.length →
      calculate_distance (posOf (dp.getD (chosenIdx dp s) default)) (posOf s) ≤
        calculate_distance (posOf (dp.getD j default)) (posOf s)) ∧
    (∀ j, j < chosenIdx dp s →
      calculate_distance (posOf (dp.getD (chosenIdx dp s) default)) (posOf s) <
        calculate_distance (posOf (dp.getD j default)) (posOf s)) := by
  have hne : ((dp.map posOf).map (fun c => calculate_distance c (posOf s))) ≠ [] := by
    simp [h]
  obtain ⟨i, hi⟩ := Option.isSome_iff_exists.mp (idxOfMin_isSome _ hne)
  obtain ⟨hlt, hmin, hfirst⟩ := idxOfMin_spec _ i hi
  have hchosen : chosenIdx dp s = i := by
    unfold chosenIdx
    rw [hi]
    rfl
  have hlen : ((dp.map posOf).map
      (fun c => calculate_distance c (posOf s))).length = dp.length := by simp
  rw [hlen] at hlt hmin
  rw [hchosen]
  refine ⟨hlt, ?_, ?_⟩
  · intro j hj
    have := hmin j hj
    rwa [distList_getD dp s i hlt, distList_getD dp s j hj] at this
  · intro j hj
    have := hfirst j hj
    rwa [distList_getD dp s i hlt,
      distList_getD dp s j (lt_trans hj hlt)] at this

lemma kmeans_foldlM_eq (dp : List DPos) (h : dp ≠ []) :
    ∀ (sp : List SPos) (acc : Cand),
      sp.foldlM (fun acc s =>
        (idxOfMin ((dp.map posOf).map
          (fun c => calculate_distance c (posOf s)))).map
            (fun i => placeAt acc i s)) acc = some (kmeansFold dp sp acc)
  | [], acc => rfl
  | s :: sp, acc => by
    rw [List.foldlM_cons]
    have hne : ((dp.map posOf).map
        (fun c => calculate_distance c (posOf s))) ≠ [] := by simp [h]
    obtain ⟨i, hi⟩ := Option.isSome_iff_exists.mp (idxOfMin_isSome _ hne)
    rw [hi]
    have hstep : Option.map (fun i => placeAt acc i s) (some i) >>=
        (fun acc' => sp.foldlM (fun acc s =>
          (idxOfMin ((dp.map posOf).map
            (fun c => calculate_distance c (posOf s)))).map
              (fun i => placeAt acc i s)) acc') =
        sp.foldlM (fun acc s =>
          (idxOfMin ((dp.map posOf).map
            (fun c => calculate_distance c (posOf s)))).map
              (fun i => placeAt acc i s)) (placeAt acc i s) := rfl
    rw [hstep, kmeans_foldlM_eq dp h sp (placeAt acc i s)]
    have : placeAt acc i s = placeAt acc (chosenIdx dp s) s := by
      unfold chosenIdx
      rw [hi]
      rfl
    rw [this]
    rfl

lemma kmeansFold_getD (dp : List DPos) (h : dp ≠ []) :
    ∀ (sp : List SPos) (acc : Cand), acc.length = dp.length →
      (kmeansFold dp sp acc).length = dp.length ∧
      ∀ i, i < dp.length →
        (kmeansFold dp sp acc).getD i [] =
          acc.getD i [] ++ sp.filter (fun s => decide (chosenIdx dp s = i))
  | [], acc, hlen => by
    refine ⟨hlen, ?_⟩
    intro i _
    simp [kmeansFold]
  | s :: sp, acc, hlen => by
    have hcl : chosenIdx dp s < acc.length := by
      rw [hlen]; exact (chosenIdx_spec dp s h).1
    have hlen' : (placeAt acc (chosenIdx dp s) s).length = dp.length := by
      rw [length_placeAt, hlen]
    obtain ⟨hl, hg⟩ := kmeansFold_getD dp h sp (placeAt acc (chosenIdx dp s) s) hlen'
    have hfold : kmeansFold dp (s :: sp) acc =
        kmeansFold dp sp (placeAt acc (chosenIdx dp s) s) := rfl
    refine ⟨by rw [hfold]; exact hl, ?_⟩
    intro i hi
    rw [hfold, hg i hi]
    by_cases hc : chosenIdx dp s = i
    · subst hc
      rw [getD_placeAt_self acc _ s hcl]
      simp [List.filter_cons, List.append_assoc]
    · rw [getD_placeAt_ne acc _ i s (fun hx => hc hx.symm)]
      simp [List.filter_cons, hc]

lemma kmeansFold_flatten (dp : List DPos) (h : dp ≠ []) :
    ∀ (sp : List SPos) (acc : Cand), acc.length = dp.length →
      (kmeansFold dp sp acc).flatten.Perm (acc.flatten ++ sp)
  | [], acc, _ => by simp [kmeansFold]
  | s :: sp, acc, hlen => by
    have hcl : chosenIdx dp s < acc.length := by
      rw [hlen]; exact (chosenIdx_spec dp s h).1
    have hlen' : (placeAt acc (chosenIdx dp s) s).length = dp.length := by
      rw [length_placeAt, hlen]
    have ih := kmeansFold_flatten dp h sp (placeAt acc (chosenIdx dp s) s) hlen'
    have hfold : kmeansFold dp (s :: sp) acc =
        kmeansFold dp sp (placeAt acc (chosenIdx dp s) s) := rfl
    rw [hfold]
    refine ih.trans ?_
    refine ((flatten_placeAt acc _ s hcl).append_right sp).trans ?_
    exact List.perm_middle.symm

lemma flatten_replicate_nil : ∀ n : Nat,
    (List.replicate n ([] : List SPos)).flatten = []
  | 0 => rfl
  | n + 1 => by
    rw [List.replicate_succ, List.flatten_cons, flatten_replicate_nil n]
    rfl

lemma getD_replicate_nil (n i : Nat) :
    (List.replicate n ([] : List SPos)).getD i [] = [] := by
  rw [List.getD_eq_getElem?_getD, List.getElem?_replicate]
  split <;> rfl

lemma k_means_eq (dp : List DPos) (sp : List SPos) (h : dp ≠ []) :
    k_means_clustering_assignment dp sp =
      some (kmeansFold dp sp (List.replicate dp.length [])) := by
  simp only [k_means_clustering_assignment]
  rw [List.length_map]
  exact kmeans_foldlM_eq dp h sp _

/-- C6: the nearest-centroid partition succeeds on a nonempty drone list,
covers every sensor exactly once (its buckets concatenate to a permutation
of the sensor list), and places each sensor exactly in the bucket of the
drone minimizing Euclidean distance, ties broken by the lowest drone
index.  Determinism for fixed inputs is inherent: the embedding is a pure
function of the two position lists. -/
theorem c6_kmeans_partition (dp : List DPos) (sp : List SPos) (h : dp ≠ []) :
    ∃ r, k_means_clustering_assignment dp sp = some r ∧
      r.length = dp.length ∧
      r.flatten.Perm sp ∧
      ∀ s ∈ sp,
        chosenIdx dp s < dp.length ∧
        (∀ i, i < dp.length → (s ∈ r.getD i [] ↔ i = chosenIdx dp s)) ∧
        (∀ j, j < dp.length →
          calculate_distance (posOf (dp.getD (chosenIdx dp s) default)) (posOf s) ≤
            calculate_distance (posOf (dp.getD j default)) (posOf s)) ∧
        (∀ j, j < chosenIdx dp s →
          calculate_distance (posOf (dp.getD (chosenIdx dp s) default)) (posOf s) <
            calculate_distance (posOf (dp.getD j default)) (posOf s)) := by
  have hlen : (List.replicate dp.length ([] : List SPos)).length = dp.length :=
    List.length_replicate _ _
  obtain ⟨hrl, hrg⟩ := kmeansFold_getD dp h sp (List.replicate dp.length []) hlen
  refine ⟨kmeansFold dp sp (List.replicate dp.length []), k_means_eq dp sp h,
    hrl, ?_, ?_⟩
  · have := kmeansFold_flatten dp h sp (List.replicate dp.length []) hlen
    rwa [flatten_replicate_nil, List.nil_append] at this
  · intro s hs
    obtain ⟨hcl, hmin, hfirst⟩ := chosenIdx_spec dp s h
    refine ⟨hcl, ?_, hmin, hfirst⟩
    intro i hi
    rw [hrg i hi, getD_replicate_nil, List.nil_append, List.mem_filter]
    constructor
    · intro hx
      have := hx.2
      simp only [decide_eq_true_eq] at this
      exact this.symm
    · intro hx
      exact ⟨hs, by simp [hx]⟩

/-- Witness for C6 at one drone and one sensor. -/
theorem c6_witness :
    ∃ r, k_means_clustering_assignment
        [((0 : ℚ), (0 : ℚ), "drone_0")] [((10 : ℚ), (0 : ℚ), "soil_sensor_0")] =
        some r ∧
      r.length = ([((0 : ℚ), (0 : ℚ), "drone_0")] : List DPos).length ∧
      r.flatten.Perm [((10 : ℚ), (0 : ℚ), "soil_sensor_0")] ∧
      ∀ s ∈ ([((10 : ℚ), (0 : ℚ), "soil_sensor_0")] : List SPos),
        chosenIdx [((0 : ℚ), (0 : ℚ), "drone_0")] s <
          ([((0 : ℚ), (0 : ℚ), "drone_0")] : List DPos).length ∧
        (∀ i, i < ([((0 : ℚ), (0 : ℚ), "drone_0")] : List DPos).length →
          (s ∈ r.getD i [] ↔ i = chosenIdx [((0 : ℚ), (0 : ℚ), "drone_0")] s)) ∧
        (∀ j, j < ([((0 : ℚ), (0 : ℚ), "drone_0")] : List DPos).length →
          calculate_distance (posOf (([((0 : ℚ), (0 : ℚ), "drone_0")] : List DPos).getD
              (chosenIdx [((0 : ℚ), (0 : ℚ), "drone_0")] s) default)) (posOf s) ≤
            calculate_distance
              (posOf (([((0 : ℚ), (0 : ℚ), "drone_0")] : List DPos).getD j default))
              (posOf s)) ∧
        (∀ j, j < chosenIdx [((0 : ℚ), (0 : ℚ), "drone_0")] s →
          calculate_distance (posOf (([((0 : ℚ), (0 : ℚ), "drone_0")] : List DPos).getD
              (chosenIdx [((0 : ℚ), (0 : ℚ), "drone_0")] s) default)) (posOf s) <
            calculate_distance
              (posOf (([((0 : ℚ), (0 : ℚ), "drone_0")] : List DPos).getD j default))
              (posOf s)) :=
  c6_kmeans_partition [((0 : ℚ), (0 : ℚ), "drone_0")]
    [((10 : ℚ), (0 : ℚ), "soil_sensor_0")] (by simp)

/-- Counterexample to C8: invoked with an empty sensor list (an "empty
position set"), the k-means-mode batch optimizer does not fail at all — it
silently returns the degenerate partition assigning the empty list to the
single drone. -/
theorem c8_counterexample :
    k_means_clustering_assignment [((0 : ℚ), (0 : ℚ), "drone_0")] [] =
      some [[]] := rfl

/-- C8 amended: the batch optimizer performs no input validation and has no
`MalformedInput` error.  In k-means mode, an empty sensor list silently
yields the degenerate all-empty partition, while an empty drone list with
at least one sensor aborts with the generic `ValueError` that Python's
`min` raises on an empty sequence (modelled as `none`), not a dedicated
`MalformedInput` failure. -/
theorem c8_empty_input_behavior (dp : List DPos) :
    k_means_clustering_assignment dp [] = some (List.replicate dp.length []) ∧
    ∀ sp : List SPos, sp ≠ [] → k_means_clustering_assignment [] sp = none := by
  constructor
  · simp only [k_means_clustering_assignment]
    rw [List.length_map]
    rfl
  · intro sp hsp
    cases sp with
    | nil => exact absurd rfl hsp
    | cons s sp =>
      simp only [k_means_clustering_assignment]
      rw [List.foldlM_cons]
      simp [idxOfMin]

/-- Witness for C8 (amended): empty drones with one sensor abort. -/
theorem c8_witness :
    k_means_clustering_assignment [] [((10 : ℚ), (0 : ℚ), "soil_sensor_0")] =
      none :=
  (c8_empty_input_behavior []).2 [((10 : ℚ), (0 : ℚ), "soil_sensor_0")] (by simp)

/-- Embeds the scan `for drone_idx, sensors in parent.items(): if sensor in
sensors: ...`: index of the first per-drone list containing the sensor. -/
def findOwner (c : Cand) (s : SPos) : Option Nat :=
  c.findIdx? (fun l => decide (s ∈ l))

/-- Embeds `sensors.remove(sensor_to_move)` on the `d`-th list: remove the
first occurrence. -/
def eraseAt : Cand → Nat → SPos → Cand
  | [], _, _ => []
  | l :: ls, 0, s => l.erase s :: ls
  | l :: ls, d + 1, s => l :: eraseAt ls d s

/-- Choice oracle standing for the `random` module inside
`genetic_algorithm_optimization`: one component per call site, indexed by
generation / child / sensor position so that every draw is independent.
Indices into lists are reduced modulo the list length at use sites, so for
nonempty lists every Python draw corresponds to some oracle. -/
structure GARand where
  initPick : Nat → Nat → Nat
  parentA : Nat → Nat → Nat
  parentB : Nat → Nat → Nat
  crossPick : Nat → Nat → Nat → Bool
  mutateNow : Nat → Nat → Bool
  mutSensor : Nat → Nat → Nat
  mutDrone : Nat → Nat → Nat

/-- The fixed `population_size = 50` of the genetic search. -/
def population_size : Nat := 50

/-- The fixed `generations = 100` of the genetic search. -/
def generationsCount : Nat := 100

/-- One initial candidate: every sensor appended to a uniformly chosen
drone (`random.randint(0, len(drone_positions) - 1)`). -/
def initCandidate (nd : Nat) (sp : List SPos) (pick : Nat → Nat) : Cand :=
  sp.enum.foldl (fun a e => placeAt a (pick e.1 % nd) e.2)
    (List.replicate nd [])

/-- The initial population of `population_size` random candidates. -/
def initPopulation (nd : Nat) (sp : List SPos) (r : GARand) : List Cand :=
  (List.range population_size).map (fun p => initCandidate nd sp (r.initPick p))

/-- Embeds the crossover loop: for every sensor, a 50/50 coin picks the
parent, and the sensor is appended to the drone owning it in that parent
(when the scan finds none, the sensor is silently dropped, as in the
source). -/
def crossover (nd : Nat) (sp : List SPos) (p1 p2 : Cand) (pick : Nat → Bool) : Cand :=
  sp.enum.foldl
    (fun c e =>
      match findOwner (if pick e.1 then p1 else p2) e.2 with
      | some d => placeAt c d e.2
      | none => c)
    (List.replicate nd [])

/-- Embeds the mutation block: pick a sensor from the full sensor list,
remove it from the first drone holding it (if any), and append it to a
uniformly chosen drone. -/
def mutateChild (nd : Nat) (sp : List SPos) (c : Cand) (sIdx dIdx : Nat) : Cand :=
  let s := sp.getD (sIdx % sp.length) default
  let c2 := match findOwner c s with
            | some d => eraseAt c d s
            | none => c
  placeAt c2 (dIdx % nd) s

/-- One child of the refill loop: crossover of two randomly chosen
survivors, then mutation with the configured probability (the Bernoulli
outcome is the oracle's `mutateNow`). -/
def makeChild (nd : Nat) (sp : List SPos) (r : GARand) (g j : Nat)
    (survivors : List Cand) : Cand :=
  let p1 := survivors.getD (r.parentA g j % survivors.length) []
  let p2 := survivors.getD (r.parentB g j % survivors.length) []
  let c := crossover nd sp p1 p2 (fun i => r.crossPick g j i)
  if r.mutateNow g j then mutateChild nd sp c (r.mutSensor g j) (r.mutDrone g j)
  else c

/-- Embeds `np.var`: population variance (mean squared deviation). -/
noncomputable def npVar (l : List ℝ) : ℝ :=
  (l.map (fun x => (x - l.sum / l.length) ^ 2)).sum / l.length

/-- Embeds the nested `fitness` function:
`1 / (total_distance + load_variance + 1)` with per-drone total distances
and their variance (`load_variance` stays 0 for an empty distance list). -/
noncomputable def fitness (dp : List DPos) (c : Cand) : ℝ :=
  let distances := c.enum.map (fun e =>
    (e.2.map (fun s =>
      calculate_distance (posOf (dp.getD e.1 default)) (posOf s))).sum)
  let load_variance := if distances = [] then 0 else npVar distances
  1 / (distances.sum + load_variance + 1)

/-- Embeds `fitness_scores.sort(key=..., reverse=True)`: stable sort by
descending fitness. -/
noncomputable def sortByFitness (dp : List DPos) (pop : List Cand) : List Cand :=
  pop.mergeSort (fun a b => decide (fitness dp b ≤ fitness dp a))

/-- One generation: keep the fittest half as survivors and refill the
population with children of random survivor pairs. -/
noncomputable def generationStep (dp : List DPos) (sp : List SPos) (r : GARand)
    (g : Nat) (pop : List Cand) : List Cand :=
  let survivors := (sortByFitness dp pop).take (population_size / 2)
  survivors ++ (List.range (population_size - survivors.length)).map
    (fun j => makeChild dp.length sp r g j survivors)

/-- The population after `g` generations of the evolution loop. -/
noncomputable def evolve (dp : List DPos) (sp : List SPos) (r : GARand) :
    Nat → List Cand
  | 0 => initPopulation dp.length sp r
  | g + 1 => generationStep dp sp r g (evolve dp sp r g)

/-- Embeds `TaskScheduler.genetic_algorithm_optimization`: evolve for the
fixed generation count and return the fittest candidate of the final
population. -/
noncomputable def genetic_algorithm_optimization (dp : List DPos) (sp : List SPos)
    (r : GARand) : Cand :=
  (sortByFitness dp (evolve dp sp r generationsCount)).headD []

/-- One row of the schedule list built by `generate_schedule`. -/
structure ScheduleEntry where
  drone_id : Nat
  sensor_id : String
  distance : ℝ
  collection_time : ℝ
  energy_cost : ℝ

/-- The schedule-building loop of `generate_schedule`: one row per assigned
sensor, with `collection_time = distance / 10 + 2` and
`energy_cost = distance * 0.1 + 5`. -/
noncomputable def buildSchedule (dp : List DPos) (asg : Cand) : List ScheduleEntry :=
  asg.enum.flatMap (fun e => e.2.map (fun s =>
    let d := calculate_distance (posOf (dp.getD e.1 default)) (posOf s)
    { drone_id := e.1, sensor_id := s.2.2, distance := d,
      collection_time := d / 10 + 2, energy_cost := d * 0.1 + 5 }))

/-- Embeds `TaskScheduler.generate_schedule`: run the selected algorithm
and wrap its assignment into schedule rows.  `none` propagates the
k-means-mode error on an empty drone list. -/
noncomputable def generate_schedule (dp : List DPos) (sp : List SPos)
    (algorithm : String) (r : GARand) : Option (List ScheduleEntry × Cand) :=
  (if algorithm = "genetic" then some (genetic_algorithm_optimization dp sp r)
   else k_means_clustering_assignment dp sp).map
    (fun asg => (buildSchedule dp asg, asg))

/-- C9: every row `generate_schedule` produces, in either mode, records an
assigned sensor of its drone's bucket, with `distance` the Euclidean
distance from that drone's position to the sensor's position,
`collection_time = distance / 10 + 2` and
`energy_cost = distance * 0.1 + 5`. -/
theorem c9_generate_schedule_cost_models (dp : List DPos) (sp : List SPos)
    (algorithm : String) (r : GARand) (sch : List ScheduleEntry) (asg : Cand)
    (h : generate_schedule dp sp algorithm r = some (sch, asg)) :
    ∀ en ∈ sch, ∃ s ∈ asg.getD en.drone_id [],
      en.sensor_id = s.2.2 ∧
      en.distance =
        calculate_distance (posOf (dp.getD en.drone_id default)) (posOf s) ∧
      en.collection_time = en.distance / 10 + 2 ∧
      en.energy_cost = en.distance * 0.1 + 5 := by
  have hsch : sch = buildSchedule dp asg := by
    unfold generate_schedule at h
    rcases halg : (if algorithm = "genetic"
        then some (genetic_algorithm_optimization dp sp r)
        else k_means_clustering_assignment dp sp) with _ | a
    · rw [halg] at h
      simp at h
    · rw [halg] at h
      have h2 : (buildSchedule dp a, a) = (sch, asg) := by simpa using h
      obtain ⟨h3, h4⟩ := Prod.ext_iff.mp h2
      simp only at h3 h4
      rw [← h4, ← h3]
  subst hsch
  intro en hen
  unfold buildSchedule at hen
  rcases List.mem_flatMap.mp hen with ⟨e, he, hmem⟩
  rcases List.mem_map.mp hmem with ⟨s, hs, hsen⟩
  have hget : asg[e.1]? = some e.2 := List.mem_enum_iff_getElem?.mp he
  have hgd : asg.getD e.1 [] = e.2 := by
    rw [List.getD_eq_getElem?_getD, hget]
    rfl
  refine ⟨s, ?_, ?_, ?_, ?_, ?_⟩
  · rw [← hsen]
    show s ∈ asg.getD e.1 []
    rw [hgd]
    exact hs
  · rw [← hsen]
  · rw [← hsen]
  · rw [← hsen]
  · rw [← hsen]

/-- Trivial choice oracle used in concrete instantiations. -/
def rTriv : GARand :=
  { initPick := fun _ _ => 0, parentA := fun _ _ => 0, parentB := fun _ _ => 0,
    crossPick := fun _ _ _ => true, mutateNow := fun _ _ => false,
    mutSensor := fun _ _ => 0, mutDrone := fun _ _ => 0 }

/-- The single schedule row of the C9 witness run. -/
noncomputable def enW : ScheduleEntry :=
  { drone_id := 0, sensor_id := "soil_sensor_0",
    distance := calculate_distance ((0 : ℚ), (0 : ℚ)) ((0 : ℚ), (0 : ℚ)),
    collection_time :=
      calculate_distance ((0 : ℚ), (0 : ℚ)) ((0 : ℚ), (0 : ℚ)) / 10 + 2,
    energy_cost :=
      calculate_distance ((0 : ℚ), (0 : ℚ)) ((0 : ℚ), (0 : ℚ)) * 0.1 + 5 }

/-- Witness for C9 on a concrete k-means-mode run with one drone and one
sensor. -/
theorem c9_witness :
    ∃ s ∈ ([[((0 : ℚ), (0 : ℚ), "soil_sensor_0")]] : Cand).getD enW.drone_id [],
      enW.sensor_id = s.2.2 ∧
      enW.distance = calculate_distance
        (posOf (([((0 : ℚ), (0 : ℚ), "drone_0")] : List DPos).getD
          enW.drone_id default)) (posOf s) ∧
      enW.collection_time = enW.distance / 10 + 2 ∧
      enW.energy_cost = enW.distance * 0.1 + 5 :=
  c9_generate_schedule_cost_models [((0 : ℚ), (0 : ℚ), "drone_0")]
    [((0 : ℚ), (0 : ℚ), "soil_sensor_0")] "kmeans" rTriv [enW]
    [[((0 : ℚ), (0 : ℚ), "soil_sensor_0")]] (by rfl) enW (by simp)

/-- Coverage invariant of the genetic search: a candidate has one bucket
per drone and its buckets concatenate to a permutation of the sensor
list (every sensor occurrence is assigned exactly once). -/
def IsCover (nd : Nat) (sp : List SPos) (c : Cand) : Prop :=
  c.length = nd ∧ c.flatten.Perm sp

lemma getD_mem_of_lt (l : List SPos) (n : Nat) (h : n < l.length) :
    l.getD n default ∈ l := by
  rw [List.getD_eq_getElem?_getD, List.getElem?_eq_getElem h]
  exact List.getElem_mem h

lemma getD_cand_mem (l : List Cand) (n : Nat) (h : l ≠ []) :
    l.getD (n % l.length) [] ∈ l := by
  have hl : n % l.length < l.length :=
    Nat.mod_lt _ (List.length_pos.mpr h)
  rw [List.getD_eq_getElem?_getD, List.getElem?_eq_getElem hl]
  exact List.getElem_mem hl

lemma findOwner_isSome (c : Cand) (s : SPos) (h : s ∈ c.flatten) :
    (findOwner c s).isSome := by
  unfold findOwner
  rw [List.findIdx?_isSome]
  rcases List.mem_flatten.mp h with ⟨l, hl, hs⟩
  exact List.any_eq_true.mpr ⟨l, hl, by simpa using hs⟩

lemma findOwner_spec (c : Cand) (s : SPos) (d : Nat)
    (h : findOwner c s = some d) :
    d < c.length ∧ s ∈ c.getD d [] ∧ ∀ j, j < d → s ∉ c.getD j [] := by
  unfold findOwner at h
  rw [List.findIdx?_eq_some_iff_getElem] at h
  obtain ⟨hd, hp, hnot⟩ := h
  refine ⟨hd, ?_, ?_⟩
  · rw [List.getD_eq_getElem?_getD, List.getElem?_eq_getElem hd]
    simpa using hp
  · intro j hj
    have hjc := hnot j hj
    rw [List.getD_eq_getElem?_getD, List.getElem?_eq_getElem (lt_trans hj hd)]
    simpa using hjc

lemma length_eraseAt : ∀ (c : Cand) (d : Nat) (s : SPos),
    (eraseAt c d s).length = c.length
  | [], _, _ => rfl
  | l :: ls, 0, s => rfl
  | l :: ls, d + 1, s => by
    simp only [eraseAt, List.length_cons, length_eraseAt ls d s]

lemma flatten_eraseAt : ∀ (c : Cand) (d : Nat) (s : SPos),
    d < c.length → s ∈ c.getD d [] → (∀ j, j < d → s ∉ c.getD j []) →
    (eraseAt c d s).flatten = c.flatten.erase s
  | [], d, s, hd, _, _ => by simp at hd
  | l :: ls, 0, s, _, hmem, _ => by
    simp only [eraseAt, List.flatten_cons]
    rw [List.erase_append_left _ (by simpa using hmem)]
  | l :: ls, d + 1, s, hd, hmem, hnot => by
    simp only [eraseAt, List.flatten_cons]
    have hnl : s ∉ l := by simpa using hnot 0 (Nat.succ_pos d)
    rw [List.erase_append_right _ hnl,
      flatten_eraseAt ls d s (by simpa using hd) (by simpa using hmem)
        (fun j hj => by simpa using hnot (j + 1) (by omega))]

lemma perm_cons_erase_spos (s : SPos) : ∀ (l : List SPos), s ∈ l →
    l.Perm (s :: l.erase s)
  | [], h => absurd h (List.not_mem_nil s)
  | x :: xs, h => by
    by_cases hx : x = s
    · subst hx
      rw [List.erase_cons_head]
    · rw [List.erase_cons_tail (by simpa using fun he => hx he)]
      have hs : s ∈ xs := by
        rcases List.mem_cons.mp h with h1 | h1
        · exact absurd h1.symm hx
        · exact h1
      exact ((perm_cons_erase_spos s xs hs).cons x).trans
        (List.Perm.swap s x (xs.erase s))

lemma crossover_fold (nd : Nat) (p1 p2 : Cand) (pick : Nat → Bool)
    (hl1 : p1.length = nd) (hl2 : p2.length = nd) :
    ∀ (l : List SPos) (k : Nat) (acc : Cand), acc.length = nd →
      (∀ s ∈ l, s ∈ p1.flatten) → (∀ s ∈ l, s ∈ p2.flatten) →
      ((l.enumFrom k).foldl (fun c e =>
          match findOwner (if pick e.1 then p1 else p2) e.2 with
          | some d => placeAt c d e.2
          | none => c) acc).length = nd ∧
      ((l.enumFrom k).foldl (fun c e =>
          match findOwner (if pick e.1 then p1 else p2) e.2 with
          | some d => placeAt c d e.2
          | none => c) acc).flatten.Perm (acc.flatten ++ l)
  | [], k, acc, hacc, _, _ => by
    refine ⟨hacc, ?_⟩
    simp
  | s :: l, k, acc, hacc, hm1, hm2 => by
    rw [List.enumFrom_cons, List.foldl_cons]
    have hin : s ∈ (if pick k then p1 else p2).flatten := by
      split
      · exact hm1 s (List.mem_cons_self s l)
      · exact hm2 s (List.mem_cons_self s l)
    obtain ⟨d, hd⟩ :=
      Option.isSome_iff_exists.mp (findOwner_isSome _ s hin)
    have hdl : d < nd := by
      have := (findOwner_spec _ s d hd).1
      split at this
      · rwa [hl1] at this
      · rwa [hl2] at this
    have hstep : (match findOwner (if pick (k, s).1 then p1 else p2) (k, s).2 with
        | some d => placeAt acc d (k, s).2
        | none => acc) = placeAt acc d s := by
      show (match findOwner (if pick k then p1 else p2) s with
        | some d => placeAt acc d s
        | none => acc) = placeAt acc d s
      rw [hd]
    rw [hstep]
    have hacc' : (placeAt acc d s).length = nd := by
      rw [length_placeAt, hacc]
    obtain ⟨ih1, ih2⟩ := crossover_fold nd p1 p2 pick hl1 hl2 l (k + 1)
      (placeAt acc d s) hacc'
      (fun x hx => hm1 x (List.mem_cons_of_mem s hx))
      (fun x hx => hm2 x (List.mem_cons_of_mem s hx))
    refine ⟨ih1, ?_⟩
    refine ih2.trans ?_
    refine ((flatten_placeAt acc d s (by rw [hacc]; exact hdl)).append_right l).trans ?_
    exact List.perm_middle.symm

lemma crossover_cover (nd : Nat) (sp : List SPos) (p1 p2 : Cand)
    (pick : Nat → Bool) (h1 : IsCover nd sp p1) (h2 : IsCover nd sp p2) :
    IsCover nd sp (crossover nd sp p1 p2 pick) := by
  obtain ⟨hf1, hf2⟩ := crossover_fold nd p1 p2 pick h1.1 h2.1 sp 0
    (List.replicate nd []) (List.length_replicate nd [])
    (fun s hs => h1.2.mem_iff.mpr hs) (fun s hs => h2.2.mem_iff.mpr hs)
  refine ⟨hf1, ?_⟩
  have := hf2
  rwa [flatten_replicate_nil, List.nil_append] at this

lemma mutateChild_cover (nd : Nat) (sp : List SPos) (c : Cand)
    (sIdx dIdx : Nat) (hnd : 0 < nd) (hsp : sp ≠ [])
    (hc : IsCover nd sp c) : IsCover nd sp (mutateChild nd sp c sIdx dIdx) := by
  have hsmem : sp.getD (sIdx % sp.length) default ∈ sp :=
    getD_mem_of_lt sp _ (Nat.mod_lt _ (List.length_pos.mpr hsp))
  have hsf : sp.getD (sIdx % sp.length) default ∈ c.flatten :=
    hc.2.mem_iff.mpr hsmem
  obtain ⟨d, hd⟩ := Option.isSome_iff_exists.mp (findOwner_isSome c _ hsf)
  obtain ⟨hdl, hdm, hdn⟩ := findOwner_spec c _ d hd
  simp only [mutateChild, hd]
  constructor
  · rw [length_placeAt, length_eraseAt, hc.1]
  · have hflat := flatten_eraseAt c d _ hdl hdm hdn
    have hlt : dIdx % nd < (eraseAt c d (sp.getD (sIdx % sp.length) default)).length := by
      rw [length_eraseAt, hc.1]
      exact Nat.mod_lt _ hnd
    refine (flatten_placeAt _ _ _ hlt).trans ?_
    rw [hflat]
    exact ((perm_cons_erase_spos _ _ hsf).symm).trans hc.2

lemma makeChild_cover (nd : Nat) (sp : List SPos) (r : GARand) (g j : Nat)
    (survivors : List Cand) (hnd : 0 < nd) (hsp : sp ≠ [])
    (hsur : ∀ c ∈ survivors, IsCover nd sp c) (hne : survivors ≠ []) :
    IsCover nd sp (makeChild nd sp r g j survivors) := by
  have hp1 := hsur _ (getD_cand_mem survivors (r.parentA g j) hne)
  have hp2 := hsur _ (getD_cand_mem survivors (r.parentB g j) hne)
  unfold makeChild
  have hcross := crossover_cover nd sp _ _ (fun i => r.crossPick g j i) hp1 hp2
  split
  · exact mutateChild_cover nd sp _ _ _ hnd hsp hcross
  · exact hcross

lemma initCandidate_cover (nd : Nat) (sp : List SPos) (pick : Nat → Nat)
    (hnd : 0 < nd) : IsCover nd sp (initCandidate nd sp pick) := by
  suffices hgen : ∀ (l : List SPos) (k : Nat) (acc : Cand), acc.length = nd →
      ((l.enumFrom k).foldl (fun a e => placeAt a (pick e.1 % nd) e.2) acc).length = nd ∧
      ((l.enumFrom k).foldl
        (fun a e => placeAt a (pick e.1 % nd) e.2) acc).flatten.Perm
        (acc.flatten ++ l) by
    obtain ⟨ha, hb⟩ := hgen sp 0 (List.replicate nd [])
      (List.length_replicate nd [])
    refine ⟨ha, ?_⟩
    rwa [flatten_replicate_nil, List.nil_append] at hb
  intro l
  induction l with
  | nil =>
    intro k acc hacc
    exact ⟨hacc, by simp⟩
  | cons s l ih =>
    intro k acc hacc
    rw [List.enumFrom_cons, List.foldl_cons]
    have hacc' : (placeAt acc (pick k % nd) s).length = nd := by
      rw [length_placeAt, hacc]
    obtain ⟨ih1, ih2⟩ := ih (k + 1) (placeAt acc (pick k % nd) s) hacc'
    refine ⟨ih1, ?_⟩
    refine ih2.trans ?_
    refine ((flatten_placeAt acc _ s
      (by rw [hacc]; exact Nat.mod_lt _ hnd)).append_right l).trans ?_
    exact List.perm_middle.symm

lemma sortByFitness_perm (dp : List DPos) (pop : List Cand) :
    (sortByFitness dp pop).Perm pop :=
  List.mergeSort_perm pop _

lemma generationStep_cover (dp : List DPos) (sp : List SPos) (r : GARand)
    (g : Nat) (pop : List Cand) (hnd : dp ≠ []) (hsp : sp ≠ [])
    (hpop : ∀ c ∈ pop, IsCover dp.length sp c)
    (hlen : pop.length = population_size) :
    ∀ c ∈ generationStep dp sp r g pop, IsCover dp.length sp c := by
  intro c hc
  have hsur : ∀ x ∈ (sortByFitness dp pop).take (population_size / 2),
      IsCover dp.length sp x := by
    intro x hx
    exact hpop x ((sortByFitness_perm dp pop).mem_iff.mp
      (List.mem_of_mem_take hx))
  have hsne : (sortByFitness dp pop).take (population_size / 2) ≠ [] := by
    have hlen2 : ((sortByFitness dp pop).take (population_size / 2)).length =
        population_size / 2 := by
      rw [List.length_take, sortByFitness, List.length_mergeSort, hlen]
      decide
    intro hnil
    rw [hnil] at hlen2
    simp [population_size] at hlen2
  simp only [generationStep] at hc
  rcases List.mem_append.mp hc with h | h
  · exact hsur c h
  · rcases List.mem_map.mp h with ⟨j, _, hj⟩
    rw [← hj]
    exact makeChild_cover dp.length sp r g j _
      (List.length_pos.mpr hnd) hsp hsur hsne

lemma length_generationStep (dp : List DPos) (sp : List SPos) (r : GARand)
    (g : Nat) (pop : List Cand) (hlen : pop.length = population_size) :
    (generationStep dp sp r g pop).length = population_size := by
  simp only [generationStep]
  rw [List.length_append, List.length_take, List.length_map, List.length_range,
    sortByFitness, List.length_mergeSort, hlen]
  decide

lemma length_evolve (dp : List DPos) (sp : List SPos) (r : GARand) :
    ∀ g, (evolve dp sp r g).length = population_size
  | 0 => by simp [evolve, initPopulation]
  | g + 1 => length_generationStep dp sp r g _ (length_evolve dp sp r g)

lemma evolve_cover (dp : List DPos) (sp : List SPos) (r : GARand)
    (hnd : dp ≠ []) (hsp : sp ≠ []) :
    ∀ g, ∀ c ∈ evolve dp sp r g, IsCover dp.length sp c
  | 0 => by
    intro c hc
    simp only [evolve, initPopulation] at hc
    rcases List.mem_map.mp hc with ⟨p, _, hp⟩
    rw [← hp]
    exact initCandidate_cover dp.length sp _ (List.length_pos.mpr hnd)
  | g + 1 => by
    intro c hc
    exact generationStep_cover dp sp r g _ hnd hsp
      (evolve_cover dp sp r hnd hsp g) (length_evolve dp sp r g) c hc

lemma headD_mem_of_ne_nil (l : List Cand) (h : l ≠ []) : l.headD [] ∈ l := by
  cases l with
  | nil => exact absurd rfl h
  | cons x xs => exact List.mem_cons_self x xs

lemma countP_eq_one_of_nodup (s : SPos) : ∀ (l : List SPos), l.Nodup → s ∈ l →
    l.countP (fun x => decide (x = s)) = 1
  | [], _, h => absurd h (List.not_mem_nil s)
  | x :: xs, hnd, h => by
    rw [List.countP_cons]
    by_cases hx : x = s
    · subst hx
      have hnot : x ∉ xs := (List.nodup_cons.mp hnd).1
      have hz : xs.countP (fun y => decide (y = x)) = 0 := by
        rw [List.countP_eq_zero]
        intro a ha
        simp only [decide_eq_true_eq]
        intro hax
        exact hnot (hax ▸ ha)
      rw [hz]
      simp
    · have hs : s ∈ xs := by
        rcases List.mem_cons.mp h with h1 | h1
        · exact absurd h1.symm hx
        · exact h1
      rw [countP_eq_one_of_nodup s xs (List.nodup_cons.mp hnd).2 hs]
      simp [hx]

lemma countP_owner (s : SPos) : ∀ (c : Cand),
    c.flatten.countP (fun x => decide (x = s)) = 1 →
    c.countP (fun l => decide (s ∈ l)) = 1
  | [], h => by simp at h
  | l :: ls, h => by
    rw [List.flatten_cons, List.countP_append] at h
    rw [List.countP_cons]
    by_cases hl : s ∈ l
    · have hcl : 0 < l.countP (fun x => decide (x = s)) :=
        List.countP_pos_iff.mpr ⟨s, hl, by simp⟩
      have hrest : ls.flatten.countP (fun x => decide (x = s)) = 0 := by omega
      have hz : ls.countP (fun l => decide (s ∈ l)) = 0 := by
        rw [List.countP_eq_zero]
        intro l' hl'
        simp only [decide_eq_true_eq]
        intro hsl'
        have : 0 < ls.flatten.countP (fun x => decide (x = s)) :=
          List.countP_pos_iff.mpr ⟨s, List.mem_flatten.mpr ⟨l', hl', hsl'⟩, by simp⟩
        omega
      rw [hz]
      simp [hl]
    · have hcl : l.countP (fun x => decide (x = s)) = 0 := by
        rw [List.countP_eq_zero]
        intro a ha
        simp only [decide_eq_true_eq]
        intro hax
        exact hl (hax ▸ ha)
      rw [hcl, Nat.zero_add] at h
      rw [countP_owner s ls h]
      simp [hl]

/-- C4: for every choice of the random draws, every candidate of every
generation of the genetic search is an exact partition of the sensor set —
its buckets concatenate to a permutation of the sensor list and, when the
sensors are distinct, every sensor appears in exactly one drone's bucket —
and so is the returned best candidate. -/
theorem c4_genetic_partition_invariant (dp : List DPos) (sp : List SPos)
    (r : GARand) (hnd : dp ≠ []) (hsp : sp ≠ []) (hnodup : sp.Nodup) :
    (∀ g, ∀ c ∈ evolve dp sp r g,
      c.flatten.Perm sp ∧
      ∀ s ∈ sp, c.countP (fun l => decide (s ∈ l)) = 1) ∧
    (genetic_algorithm_optimization dp sp r).flatten.Perm sp ∧
    (∀ s ∈ sp, (genetic_algorithm_optimization dp sp r).countP
      (fun l => decide (s ∈ l)) = 1) := by
  have hmain : ∀ g, ∀ c ∈ evolve dp sp r g,
      c.flatten.Perm sp ∧
      ∀ s ∈ sp, c.countP (fun l => decide (s ∈ l)) = 1 := by
    intro g c hc
    obtain ⟨_, hperm⟩ := evolve_cover dp sp r hnd hsp g c hc
    refine ⟨hperm, ?_⟩
    intro s hs
    apply countP_owner
    rw [hperm.countP_eq]
    exact countP_eq_one_of_nodup s sp hnodup hs
  refine ⟨hmain, ?_⟩
  have hne : evolve dp sp r generationsCount ≠ [] := by
    intro hnil
    have hl := length_evolve dp sp r generationsCount
    rw [hnil] at hl
    simp [population_size] at hl
  have hsne : sortByFitness dp (evolve dp sp r generationsCount) ≠ [] := by
    intro hnil
    have hp := sortByFitness_perm dp (evolve dp sp r generationsCount)
    rw [hnil] at hp
    exact hne hp.symm.eq_nil
  have hmem : genetic_algorithm_optimization dp sp r ∈
      evolve dp sp r generationsCount := by
    unfold genetic_algorithm_optimization
    exact (sortByFitness_perm dp _).mem_iff.mp (headD_mem_of_ne_nil _ hsne)
  obtain ⟨hp, hcp⟩ := hmain generationsCount _ hmem
  exact ⟨hp, hcp⟩

/-- Witness for C4 on one drone, one sensor and the trivial oracle. -/
theorem c4_witness :
    (genetic_algorithm_optimization [((0 : ℚ), (0 : ℚ), "drone_0")]
      [((10 : ℚ), (0 : ℚ), "soil_sensor_0")] rTriv).flatten.Perm
      [((10 : ℚ), (0 : ℚ), "soil_sensor_0")] ∧
    ∀ s ∈ ([((10 : ℚ), (0 : ℚ), "soil_sensor_0")] : List SPos),
      (genetic_algorithm_optimization [((0 : ℚ), (0 : ℚ), "drone_0")]
        [((10 : ℚ), (0 : ℚ), "soil_sensor_0")] rTriv).countP
        (fun l => decide (s ∈ l)) = 1 :=
  (c4_genetic_partition_invariant [((0 : ℚ), (0 : ℚ), "drone_0")]
    [((10 : ℚ), (0 : ℚ), "soil_sensor_0")] rTriv (by simp) (by simp)
    (List.nodup_singleton _)).2

lemma sortByFitness_sorted (dp : List DPos) (pop : List Cand) :
    (sortByFitness dp pop).Pairwise
      (fun a b => decide (fitness dp b ≤ fitness dp a) = true) := by
  apply List.sorted_mergeSort
  · intro a b c hab hbc
    simp only [decide_eq_true_eq] at hab hbc ⊢
    exact le_trans hbc hab
  · intro a b
    simp only [Bool.or_eq_true, decide_eq_true_eq]
    exact le_total (fitness dp b) (fitness dp a)

lemma sortByFitness_head_max (dp : List DPos) (pop : List Cand) (c : Cand)
    (hc : c ∈ pop) :
    fitness dp c ≤ fitness dp ((sortByFitness dp pop).headD []) ∧
    (sortByFitness dp pop).headD [] ∈ pop := by
  have hcs : c ∈ sortByFitness dp pop :=
    (sortByFitness_perm dp pop).mem_iff.mpr hc
  cases hs : sortByFitness dp pop with
  | nil => rw [hs] at hcs; simp at hcs
  | cons h t =>
    rw [hs] at hcs
    have hsorted := sortByFitness_sorted dp pop
    rw [hs] at hsorted
    have hhead : ∀ x ∈ t, fitness dp x ≤ fitness dp h := by
      intro x hx
      have := (List.pairwise_cons.mp hsorted).1 x hx
      simpa using this
    constructor
    · rw [List.headD_cons]
      rcases List.mem_cons.mp hcs with h1 | h1
      · rw [h1]
      · exact hhead c h1
    · rw [List.headD_cons]
      have hmem : h ∈ sortByFitness dp pop := by
        rw [hs]
        exact List.mem_cons_self h t
      exact (sortByFitness_perm dp pop).mem_iff.mp hmem

/-- C5: for every choice of the random draws, the maximal fitness present
in the population never decreases from one generation to the next (the top
half survives unchanged), and the candidate returned after the fixed
generation count has maximal fitness in the final population. -/
theorem c5_fitness_monotone (dp : List DPos) (sp : List SPos) (r : GARand) :
    (∀ g, ∀ c ∈ evolve dp sp r g, ∃ c2 ∈ evolve dp sp r (g + 1),
      fitness dp c ≤ fitness dp c2) ∧
    genetic_algorithm_optimization dp sp r ∈ evolve dp sp r generationsCount ∧
    (∀ c ∈ evolve dp sp r generationsCount,
      fitness dp c ≤ fitness dp (genetic_algorithm_optimization dp sp r)) := by
  have hbest : ∀ (pop : List Cand), ∀ c ∈ pop,
      fitness dp c ≤ fitness dp ((sortByFitness dp pop).headD []) ∧
      (sortByFitness dp pop).headD [] ∈ pop := fun pop c hc =>
    sortByFitness_head_max dp pop c hc
  refine ⟨?_, ?_, ?_⟩
  · intro g c hc
    refine ⟨(sortByFitness dp (evolve dp sp r g)).headD [],
      ?_, (hbest _ c hc).1⟩
    show (sortByFitness dp (evolve dp sp r g)).headD [] ∈
      generationStep dp sp r g (evolve dp sp r g)
    simp only [generationStep]
    apply List.mem_append_left
    cases hsrt : sortByFitness dp (evolve dp sp r g) with
    | nil =>
      have hcs : c ∈ sortByFitness dp (evolve dp sp r g) :=
        (sortByFitness_perm dp _).mem_iff.mpr hc
      rw [hsrt] at hcs
      simp at hcs
    | cons h t =>
      rw [List.headD_cons]
      have h25 : population_size / 2 = 24 + 1 := by decide
      rw [h25, List.take_succ_cons]
      exact List.mem_cons_self _ _
  · have hne : evolve dp sp r generationsCount ≠ [] := by
      intro hnil
      have hl := length_evolve dp sp r generationsCount
      rw [hnil] at hl
      simp [population_size] at hl
    have hc0 := headD_mem_of_ne_nil _ hne
    exact (hbest (evolve dp sp r generationsCount) _ hc0).2
  · intro c hc
    exact (hbest (evolve dp sp r generationsCount) c hc).1

/-- Witness for C5: the single initial candidate of a one-drone, one-sensor
run is dominated by some member of the next generation. -/
theorem c5_witness :
    ∃ c2 ∈ evolve [((0 : ℚ), (0 : ℚ), "drone_0")]
        [((10 : ℚ), (0 : ℚ), "soil_sensor_0")] rTriv 1,
      fitness [((0 : ℚ), (0 : ℚ), "drone_0")]
          [[((10 : ℚ), (0 : ℚ), "soil_sensor_0")]] ≤
        fitness [((0 : ℚ), (0 : ℚ), "drone_0")] c2 :=
  (c5_fitness_monotone [((0 : ℚ), (0 : ℚ), "drone_0")]
    [((10 : ℚ), (0 : ℚ), "soil_sensor_0")] rTriv).1 0
    [[((10 : ℚ), (0 : ℚ), "soil_sensor_0")]] (by
      show [[((10 : ℚ), (0 : ℚ), "soil_sensor_0")]] ∈
        initPopulation 1 [((10 : ℚ), (0 : ℚ), "soil_sensor_0")] rTriv
      simp only [initPopulation]
      exact List.mem_map.mpr ⟨0, List.mem_range.mpr (by norm_num [population_size]), rfl⟩)

end YafsSched

namespace TaskSched

lemma rangeProd_eq (m : Nat) (hm : 0 < m) : ∀ g : Nat,
    (List.range g).flatMap (fun i => (List.range m).map (fun j => (i, j))) =
      (List.range (g * m)).map (fun k => (k / m, k % m))
  | 0 => by rw [Nat.zero_mul]; rfl
  | g + 1 => by
    rw [List.range_succ, List.flatMap_append, rangeProd_eq m hm g]
    have h1 : ([g] : List Nat).flatMap
        (fun i => (List.range m).map (fun j => (i, j))) =
        (List.range m).map (fun j => (g, j)) := by simp
    rw [h1]
    have h2 : (g + 1) * m = g * m + m := by ring
    rw [h2, List.range_add, List.map_append, List.map_map]
    congr 1
    apply List.map_congr_left
    intro j hj
    have hjm : j < m := List.mem_range.mp hj
    simp only [Function.comp_apply]
    have hd : (g * m + j) / m = g := by
      rw [Nat.add_comm, Nat.mul_comm, Nat.add_mul_div_left j g hm,
        Nat.div_eq_of_lt hjm, Nat.zero_add]
    have hmod : (g * m + j) % m = j := by
      rw [Nat.add_comm, Nat.mul_comm, Nat.add_mul_mod_self_left,
        Nat.mod_eq_of_lt hjm]
    rw [hd, hmod]

lemma sensorEntries_eq (ns : Nat) :
    sensorEntries ns = (List.range ns).map (fun k =>
      (100 + k, (((k / grid_size ns * 10 : ℕ) : ℚ),
                 ((k % grid_size ns * 10 : ℕ) : ℚ)))) := by
  have hg : 0 < grid_size ns := by
    unfold grid_size
    omega
  have hns : ns ≤ grid_size ns * grid_size ns := by
    unfold grid_size
    refine le_trans (le_of_lt (Nat.lt_succ_sqrt ns)) ?_
    exact Nat.mul_le_mul (by omega) (by omega)
  unfold sensorEntries
  rw [show sensorCells (grid_size ns) =
      (List.range (grid_size ns * grid_size ns)).map
        (fun k => (k / grid_size ns, k % grid_size ns)) from
      rangeProd_eq _ hg _,
    ← List.map_take, List.take_range, min_eq_left hns]
  apply List.ext_getElem?
  intro n
  by_cases hn : n < ns
  · rw [List.getElem?_map, List.getElem?_enum, List.getElem?_map,
      List.getElem?_map, List.getElem?_range hn]
    rfl
  · have h1 : (List.range ns).length ≤ n := by
      simpa using Nat.le_of_not_lt hn
    rw [List.getElem?_map, List.getElem?_enum, List.getElem?_map,
      List.getElem?_map, List.getElem?_eq_none h1]
    rfl

/-- Spec-modelled grid size, following the spec sentence "a deterministic
grid sized to ceil(sqrt(num_sensors)) + 2 cells per axis". -/
noncomputable def gridSizeClaim (ns : Nat) : Nat := ⌈Real.sqrt ns⌉₊ + 2

/-- Counterexample to C7 as stated: at `num_sensors = 5` the code computes
`int(math.sqrt(5)) + 2 = 4` cells per axis (floor), while the claimed
`ceil(sqrt(5)) + 2` is 5. -/
theorem c7_counterexample :
    grid_size 5 = 4 ∧ gridSizeClaim 5 = 5 ∧ grid_size 5 ≠ gridSizeClaim 5 := by
  have hsq : Nat.sqrt 5 = 2 := (Nat.eq_sqrt.mpr (by norm_num)).symm
  have hcast : ((5 : ℕ) : ℝ) = 5 := by norm_num
  have hceil : ⌈Real.sqrt ((5 : ℕ) : ℝ)⌉₊ = 3 := by
    rw [hcast, Nat.ceil_eq_iff (by norm_num)]
    constructor
    · have h4 : (2 : ℝ) < Real.sqrt 5 := by
        rw [show (2 : ℝ) = Real.sqrt 4 by
          rw [show (4 : ℝ) = 2 ^ 2 by norm_num, Real.sqrt_sq (by norm_num)]]
        exact Real.sqrt_lt_sqrt (by norm_num) (by norm_num)
      simpa using h4
    · have h9 : Real.sqrt 5 ≤ Real.sqrt 9 := Real.sqrt_le_sqrt (by norm_num)
      rw [show (9 : ℝ) = 3 ^ 2 by norm_num, Real.sqrt_sq (by norm_num)] at h9
      simpa using h9
  have hgs : grid_size 5 = 4 := by
    show Nat.sqrt 5 + 2 = 4
    rw [hsq]
  have hgc : gridSizeClaim 5 = 5 := by
    show ⌈Real.sqrt ((5 : ℕ) : ℝ)⌉₊ + 2 = 5
    rw [hceil]
  refine ⟨hgs, hgc, ?_⟩
  rw [hgs, hgc]
  norm_num

/-- C7 amended: initialization places the sensors on a deterministic grid
of `floor(sqrt(num_sensors)) + 2` cells per axis (the code's
`int(math.sqrt(...)) + 2`, not the ceiling), spaced 10 units apart, with
sensor ids starting at 100; drones get ids starting at 50, positions
drawn from the random tape inside the same bounding box
`[0, grid_size * 10]`, battery 100 each, and no tasks. -/
theorem c7_initialization (nd ns : Nat) (tape : Nat → Nat × Nat) :
    (initPositions nd ns tape).sensor_positions =
      (List.range ns).map (fun k =>
        (100 + k, (((k / grid_size ns * 10 : ℕ) : ℚ),
                   ((k % grid_size ns * 10 : ℕ) : ℚ)))) ∧
    (initPositions nd ns tape).drone_battery =
      (List.range nd).map (fun i => (50 + i, (100 : ℚ))) ∧
    (initPositions nd ns tape).drone_positions = droneEntries nd ns tape ∧
    (∀ e ∈ droneEntries nd ns tape,
      ∃ i, i < nd ∧ e.1 = 50 + i ∧
        0 ≤ e.2.1 ∧ e.2.1 ≤ ((grid_size ns * 10 : ℕ) : ℚ) ∧
        0 ≤ e.2.2 ∧ e.2.2 ≤ ((grid_size ns * 10 : ℕ) : ℚ)) ∧
    ∀ d, (initPositions nd ns tape).assigned_tasks d = [] := by
  refine ⟨sensorEntries_eq ns, rfl, rfl, ?_, fun _ => rfl⟩
  intro e he
  rcases List.mem_map.mp he with ⟨i, hi, hie⟩
  refine ⟨i, List.mem_range.mp hi, ?_, ?_, ?_, ?_, ?_⟩
  · rw [← hie]
  · rw [← hie]
    exact Nat.cast_nonneg _
  · rw [← hie]
    show (((tape i).1 % (grid_size ns * 10 + 1) : ℕ) : ℚ) ≤ _
    exact_mod_cast Nat.le_of_lt_succ (Nat.mod_lt _ (Nat.succ_pos _))
  · rw [← hie]
    exact Nat.cast_nonneg _
  · rw [← hie]
    show (((tape i).2 % (grid_size ns * 10 + 1) : ℕ) : ℚ) ≤ _
    exact_mod_cast Nat.le_of_lt_succ (Nat.mod_lt _ (Nat.succ_pos _))

/-- Witness for the amended C7 at one drone and one sensor. -/
theorem c7_witness :
    ∃ i, i < 1 ∧ ((50 : Nat), ((0 : ℚ), (0 : ℚ))).1 = 50 + i ∧
      0 ≤ ((50 : Nat), ((0 : ℚ), (0 : ℚ))).2.1 ∧
      ((50 : Nat), ((0 : ℚ), (0 : ℚ))).2.1 ≤ ((grid_size 1 * 10 : ℕ) : ℚ) ∧
      0 ≤ ((50 : Nat), ((0 : ℚ), (0 : ℚ))).2.2 ∧
      ((50 : Nat), ((0 : ℚ), (0 : ℚ))).2.2 ≤ ((grid_size 1 * 10 : ℕ) : ℚ) :=
  (c7_initialization 1 1 (fun _ => (0, 0))).2.2.2.1
    ((50 : Nat), ((0 : ℚ), (0 : ℚ)))
    (by norm_num [droneEntries, grid_size, Nat.sqrt_one, List.range_succ])

end TaskSched
